import Mathlib

/-!
Verification of `app.py`, a Streamlit sentiment-analysis front end.

The file shallowly embeds the pure core of the script:
  * `parse_analysis_result` — the free-text parser (lines 61-86 of app.py),
    built from Python-faithful string primitives over `List Char`;
  * `generate_pie_chart` — the chart construction (lines 90-108);
  * `wait_for_file_active` — the polling loop (lines 19-26), with explicit
    fuel standing for the number of loop iterations, and the remote service
    modelled as a fetch oracle;
  * the top-level upload handler (lines 115-139), with the filesystem as an
    explicit list of paths and the network call as a parameter.
-/

/-- Python's default whitespace characters for `str.strip()` / `str.split()`
(ASCII subset, which is all the parser ever meets). -/
def isPySpace (c : Char) : Bool :=
  c = ' ' || c = '\t' || c = '\n' || c = '\r' || c = '\x0B' || c = '\x0C'

/-- `cs` with leading and trailing Python whitespace removed: Python `str.strip()`. -/
def pyStripList (cs : List Char) : List Char :=
  ((cs.dropWhile isPySpace).reverse.dropWhile isPySpace).reverse

/-- Split at every occurrence of `sep`, keeping empty pieces: Python
`str.split(sep)` for a one-character separator. -/
def splitOnChar (sep : Char) : List Char → List (List Char)
  | [] => [[]]
  | c :: rest =>
    let r := splitOnChar sep rest
    if c = sep then [] :: r
    else
      match r with
      | [] => [[c]]
      | h :: t => (c :: h) :: t

/-- Split at every character satisfying `p`, keeping empty pieces. -/
def splitOnP (p : Char → Bool) : List Char → List (List Char)
  | [] => [[]]
  | c :: rest =>
    let r := splitOnP p rest
    if p c then [] :: r
    else
      match r with
      | [] => [[c]]
      | h :: t => (c :: h) :: t

/-- Python `str.split()` with no argument: split on runs of whitespace and
drop empty tokens. -/
def pySplitWs (cs : List Char) : List (List Char) :=
  (splitOnP isPySpace cs).filter (fun t => t ≠ [])

/-- Does `line` contain `pat` as a contiguous substring (Python `pat in line`),
over character lists? -/
def infixAt : List Char → List Char → Bool
  | [], _ => true
  | _ :: _, [] => false
  | pat, c :: rest => (pat.isPrefixOf (c :: rest)) || infixAt pat rest

/-- Python substring test `pat in line`, case-sensitive. -/
def strContains (line pat : String) : Bool :=
  infixAt pat.data line.data

/-- Numeric value of a decimal digit character. -/
def digitVal (c : Char) : Nat := c.toNat - 48

/-- Continue reading a decimal literal: digits, with single underscores
allowed between digits (Python `int` accepts `4_0`). -/
def natDigitsGo : Nat → List Char → Option Nat
  | acc, [] => some acc
  | acc, '_' :: c :: rest =>
    if c.isDigit then natDigitsGo (10 * acc + digitVal c) rest else none
  | acc, c :: rest =>
    if c.isDigit then natDigitsGo (10 * acc + digitVal c) rest else none

/-- A nonempty decimal literal (underscore separators allowed between digits),
or `none` if malformed. -/
def natOfDigits : List Char → Option Nat
  | [] => none
  | c :: rest => if c.isDigit then natDigitsGo (digitVal c) rest else none

/-- Python `int(token)` on a whitespace-free token (the parser only ever calls
it on a token produced by `str.split()`): optional sign, then decimal digits;
`none` models the `ValueError`. -/
def pyInt : List Char → Option Int
  | '+' :: rest => (natOfDigits rest).map (fun n => (n : Int))
  | '-' :: rest => (natOfDigits rest).map (fun n => -(n : Int))
  | cs => (natOfDigits cs).map (fun n => (n : Int))

/-- The exceptions `parse_analysis_result` can raise internally.  The outer
`except` wraps each in `ValueError("Failed to parse result: {e}")`, so the
final error always names the underlying cause. -/
inductive ParseError where
  /-- `IndexError: list index out of range`, from `line.split(":")[1]` when
  the line has no colon, or from `.split()[0]` when no token remains. -/
  | indexError (line : String)
  /-- `ValueError` from `int()` on a non-numeric token. -/
  | intError (token : String)
  /-- `ValueError("Incomplete sentiment data found in the result.")`. -/
  | incomplete
deriving DecidableEq, Repr

/-- The Python exception message carried by a `ParseError`. -/
def ParseError.message : ParseError → String
  | .indexError _ => "list index out of range"
  | .intError token => "invalid literal for int() with base 10: " ++ token
  | .incomplete => "Incomplete sentiment data found in the result."

/-- The per-line extraction
`int(line.split(":")[1].strip().replace("%", "").split()[0])`
of app.py lines 72/74/76: segment between the first and second colon,
stripped, all percent signs removed, first whitespace-delimited token,
parsed as an integer. -/
def extractValue (line : String) : Except ParseError Int :=
  match (splitOnChar ':' line.data)[1]? with
  | none => .error (.indexError line)
  | some seg =>
    match pySplitWs ((pyStripList seg).filter (fun c => c ≠ '%')) with
    | [] => .error (.indexError line)
    | tok :: _ =>
      match pyInt tok with
      | none => .error (.intError (String.mk tok))
      | some n => .ok n

/-- The label a line is attributed to by the `if/elif/elif` chain of app.py
lines 71-76: `"Positive"` before `"Negative"` before `"Neutral"`, substring
match, case-sensitive; `none` when the line mentions no label. -/
def lineLabel (line : String) : Option String :=
  if strContains line "Positive" then some "Positive"
  else if strContains line "Negative" then some "Negative"
  else if strContains line "Neutral" then some "Neutral"
  else none

/-- The `sentiment_data` dictionary: association list in insertion order,
keys unique (Python dict semantics). -/
abbrev Dict := List (String × Int)

/-- Python `d[k] = v`: update the entry in place if the key exists, else
append a new entry at the end. -/
def dictSet : Dict → String → Int → Dict
  | [], k, v => [(k, v)]
  | (k', v') :: rest, k, v =>
    if k' = k then (k, v) :: rest else (k', v') :: dictSet rest k v

/-- Python `d.get(k)`: the value at key `k`, if present. -/
def dictGet? : Dict → String → Option Int
  | [], _ => none
  | (k', v') :: rest, k => if k' = k then some v' else dictGet? rest k

/-- The keys of the dictionary, in insertion order (Python `list(d.keys())`). -/
def dictKeys (d : Dict) : List String := d.map Prod.fst

/-- One iteration of the `for line in lines` loop of app.py lines 70-76:
attribute the line to a label (or skip it) and store the extracted value. -/
def processLine (d : Dict) (line : String) : Except ParseError Dict :=
  match lineLabel line with
  | none => .ok d
  | some k =>
    match extractValue line with
    | .error e => .error e
    | .ok v => .ok (dictSet d k v)

/-- The whole `for` loop, threading `sentiment_data` through the lines. -/
def foldLines : Dict → List String → Except ParseError Dict
  | d, [] => .ok d
  | d, line :: rest =>
    match processLine d line with
    | .error e => .error e
    | .ok d' => foldLines d' rest

/-- The loop plus the final `len(sentiment_data) != 3` check of app.py
lines 78-82. -/
def parseLines (lines : List String) : Except ParseError Dict :=
  match foldLines [] lines with
  | .error e => .error e
  | .ok d => if d.length = 3 then .ok d else .error .incomplete

instance {ε α : Type} [DecidableEq ε] [DecidableEq α] : DecidableEq (Except ε α) := fun x y =>
  match x, y with
  | .error a, .error b =>
    if h : a = b then isTrue (by rw [h]) else isFalse (by intro hc; cases hc; exact h rfl)
  | .error _, .ok _ => isFalse (by intro hc; cases hc)
  | .ok _, .error _ => isFalse (by intro hc; cases hc)
  | .ok a, .ok b =>
    if h : a = b then isTrue (by rw [h]) else isFalse (by intro hc; cases hc; exact h rfl)

/-- `result.strip().split("\n")` of app.py line 67. -/
def linesOf (result : String) : List String :=
  (splitOnChar '\n' (pyStripList result.data)).map String.mk

/-- `parse_analysis_result` of app.py lines 61-86: split the reply into lines,
scan them for the three labels, and insist on exactly three entries.
`Except.error e` models the raised `ValueError("Failed to parse result: {e}")`
whose text names the cause `e` (`ParseError.message`). -/
def parse_analysis_result (result : String) : Except ParseError Dict :=
  parseLines (linesOf result)

/-- The matplotlib pie chart built by `generate_pie_chart` (app.py lines
90-108), recording every argument passed to `ax.pie`. -/
structure PieChart where
  labels : List String
  sizes : List Int
  colors : List String
  explode : List ℚ
  autopct : String
  shadow : Bool
  startangle : ℕ
deriving DecidableEq, Repr

/-- `generate_pie_chart` of app.py lines 90-108: labels and sizes are taken
from the dictionary in insertion order, the color list and the explode
offsets are fixed positionally. -/
def generate_pie_chart (data : Dict) : PieChart :=
  { labels := data.map Prod.fst
    sizes := data.map Prod.snd
    colors := ["#4CAF50", "#F44336", "#FFC107"]
    explode := [1/10, 1/10, 0]
    autopct := "%1.1f%%"
    shadow := true
    startangle := 140 }

/-- The color matplotlib pairs with a given slice label: the color at the
label's position in the chart's label list. -/
def colorOf (chart : PieChart) (label : String) : Option String :=
  match chart.labels.findIdx? (fun l => l == label) with
  | none => none
  | some i => chart.colors[i]?

/-- A file handle of the remote service as seen by app.py: `file.name` and
`file.state.name`. -/
structure GFile where
  name : String
  state : String
deriving DecidableEq, Repr

/-- The `raise`/`return` tail of `wait_for_file_active` (app.py lines 24-26):
anything but `ACTIVE` raises an exception naming the handle. -/
def waitExit (file : GFile) : Except String GFile :=
  if file.state = "ACTIVE" then .ok file
  else .error ("File " ++ file.name ++ " failed to process")

/-- `wait_for_file_active` of app.py lines 19-26.  The remote service is the
oracle `getFile`: `getFile name t` is what `genai.get_file(name)` returns at
the `t`-th poll.  `fuel` bounds the number of loop iterations we are willing
to unfold; `none` means the loop was still in `PROCESSING` after `fuel`
iterations (the real loop has no timeout and would still be running).  On
termination the result carries the total time slept (10 units per
iteration, app.py line 22). -/
def wait_for_file_active (getFile : String → Nat → GFile) :
    Nat → Nat → GFile → Option (Except String GFile × Nat)
  | 0, _, file =>
    if file.state = "PROCESSING" then none
    else some (waitExit file, 0)
  | fuel + 1, t, file =>
    if file.state = "PROCESSING" then
      (wait_for_file_active getFile fuel (t + 1) (getFile file.name t)).map
        (fun rs => (rs.1, rs.2 + 10))
    else some (waitExit file, 0)

/-- The sequence of handles the loop fetches: `pollSeq getFile t file n` is
the handle in hand after `n` re-fetches, the `n`-th fetch happening at poll
time `t + n`. -/
def pollSeq (getFile : String → Nat → GFile) (t : Nat) (file : GFile) : Nat → GFile
  | 0 => file
  | n + 1 => getFile (pollSeq getFile t file n).name (t + n)

/-- The handle `analyze_sentiment` (app.py lines 28-58) seeds the chat session
with: the upload result passed through `wait_for_file_active`.  `some (.ok f)`
means the session is started with handle `f`; `some (.error m)` means the
exception `m` propagates and no session is started. -/
def analyze_sentiment_session_file (upload : String → GFile)
    (getFile : String → Nat → GFile) (fuel : Nat) (path : String) :
    Option (Except String GFile) :=
  (wait_for_file_active getFile fuel 0 (upload path)).map Prod.fst

/-- What the Streamlit shell shows after one run of the upload handler. -/
inductive Display where
  /-- `st.success` + raw text + the pie chart. -/
  | successChart (raw : String) (chart : PieChart)
  /-- `st.error(f"Error during analysis: {e}")`. -/
  | errorMsg (msg : String)
deriving DecidableEq, Repr

/-- Writing a file: `open(path, "wb")` creates it (or truncates an existing
one, leaving it present). -/
def fsWrite (fs : List String) (path : String) : List String :=
  if path ∈ fs then fs else fs ++ [path]

/-- `os.remove(path)`. -/
def fsRemove (fs : List String) (path : String) : List String :=
  fs.filter (fun p => p ≠ path)

/-- The top-level upload handler of app.py lines 115-139, with the filesystem
as an explicit list of present paths and the network-bound
`analyze_sentiment` as a parameter returning either the raw reply text or the
exception message it raises.  The `finally` block removes the temporary file
on every path out of the `try`. -/
def upload_handler (analyze : String → Except String String)
    (fileName : String) (fs : List String) : Display × List String :=
  let temp := "temp_" ++ fileName
  let fs1 := fsWrite fs temp
  let disp :=
    match analyze temp with
    | .error e => Display.errorMsg ("Error during analysis: " ++ e)
    | .ok raw =>
      match parse_analysis_result raw with
      | .error e =>
        Display.errorMsg
          ("Error during analysis: Failed to parse result: " ++ e.message)
      | .ok d => Display.successChart raw (generate_pie_chart d)
  (disp, fsRemove fs1 temp)

example : parse_analysis_result "Positive: 40%\nNegative: 10%\nNeutral: 50%"
    = .ok [("Positive", 40), ("Negative", 10), ("Neutral", 50)] := by decide

example : parse_analysis_result "Positive: 40%\nNegative: 10%\nNeutral: 50%\nPositive: 99%"
    = .ok [("Positive", 99), ("Negative", 10), ("Neutral", 50)] := by decide

example : parse_analysis_result "Positive: 40:60\nNegative: 10%\nNeutral: 50%"
    = .ok [("Positive", 40), ("Negative", 10), ("Neutral", 50)] := by decide

example : parse_analysis_result "Positive: 40%\nNeutral: 50%" = .error .incomplete := by decide

example : parse_analysis_result "Positive stuff\nPositive: 40%"
    = .error (.indexError "Positive stuff") := by decide

example : parse_analysis_result "  \n Positive: 40% \nNegative: 10 % extra\nignore me\nNeutral: +50"
    = .ok [("Positive", 40), ("Negative", 10), ("Neutral", 50)] := by decide

/-- The last line of `lines` the `if/elif` chain attributes to label `k`. -/
def lastLabeled (k : String) : List String → Option String
  | [] => none
  | line :: rest =>
    match lastLabeled k rest with
    | some r => some r
    | none => if lineLabel line = some k then some line else none

theorem dictGet?_dictSet_self (d : Dict) (k : String) (v : Int) :
    dictGet? (dictSet d k v) k = some v := by
  induction d with
  | nil => simp [dictSet, dictGet?]
  | cons p rest ih =>
    obtain ⟨k', v'⟩ := p
    by_cases h : k' = k <;> simp [dictSet, dictGet?, h, ih]

theorem dictGet?_dictSet_ne (d : Dict) (k k' : String) (v : Int) (h : k' ≠ k) :
    dictGet? (dictSet d k v) k' = dictGet? d k' := by
  induction d with
  | nil => simp [dictSet, dictGet?, Ne.symm h]
  | cons p rest ih =>
    obtain ⟨k'', v''⟩ := p
    by_cases h2 : k'' = k
    · subst h2
      simp [dictSet, dictGet?, Ne.symm h]
    · by_cases h3 : k'' = k'
      · subst h3
        simp [dictSet, dictGet?, h, ih]
      · simp [dictSet, dictGet?, h2, h3, ih]

theorem dictKeys_dictSet (d : Dict) (k : String) (v : Int) :
    dictKeys (dictSet d k v)
      = if k ∈ dictKeys d then dictKeys d else dictKeys d ++ [k] := by
  induction d with
  | nil => simp [dictSet, dictKeys]
  | cons p rest ih =>
    obtain ⟨k', v'⟩ := p
    by_cases h : k' = k
    · subst h
      simp [dictSet, dictKeys]
    · have hne : k ≠ k' := fun hh => h hh.symm
      simp only [dictKeys, dictSet, List.map_cons, if_neg h] at ih ⊢
      rw [ih]
      by_cases h2 : k ∈ List.map Prod.fst rest
      · simp [h2, List.mem_cons, hne]
      · simp [h2, List.mem_cons, hne]

theorem dictKeys_nodup_dictSet (d : Dict) (k : String) (v : Int)
    (h : (dictKeys d).Nodup) : (dictKeys (dictSet d k v)).Nodup := by
  rw [dictKeys_dictSet]
  by_cases hk : k ∈ dictKeys d
  · simpa [hk] using h
  · simp [hk, List.nodup_append, h]

theorem mem_dictKeys_iff (d : Dict) (k : String) :
    k ∈ dictKeys d ↔ (dictGet? d k).isSome := by
  induction d with
  | nil => simp [dictKeys, dictGet?]
  | cons p rest ih =>
    obtain ⟨k', v'⟩ := p
    by_cases h : k' = k
    · subst h
      simp [dictKeys, dictGet?]
    · have hne : k ≠ k' := fun hh => h hh.symm
      have hck : dictKeys ((k', v') :: rest) = k' :: dictKeys rest := rfl
      rw [hck, List.mem_cons, ih]
      simp [dictGet?, h, hne]

theorem lineLabel_mem_labels (line k : String) (h : lineLabel line = some k) :
    k ∈ ["Positive", "Negative", "Neutral"] := by
  unfold lineLabel at h
  split_ifs at h <;> simp_all

theorem lineLabel_contains (line k : String) (h : lineLabel line = some k) :
    strContains line k = true := by
  unfold lineLabel at h
  split_ifs at h <;> simp_all

theorem lineLabel_ne_of_not_contains (line k : String)
    (h : strContains line k = false) : lineLabel line ≠ some k := by
  intro hc
  rw [lineLabel_contains line k hc] at h
  cases h

theorem lastLabeled_spec (k : String) (lines : List String) (l : String)
    (h : lastLabeled k lines = some l) : l ∈ lines ∧ lineLabel l = some k := by
  induction lines with
  | nil => cases h
  | cons line rest ih =>
    unfold lastLabeled at h
    cases hr : lastLabeled k rest with
    | some r =>
      rw [hr] at h
      obtain rfl : r = l := by injection h
      obtain ⟨h1, h2⟩ := ih hr
      exact ⟨List.mem_cons_of_mem _ h1, h2⟩
    | none =>
      rw [hr] at h
      split_ifs at h with hc
      · obtain rfl : line = l := by injection h
        exact ⟨List.mem_cons_self _ _, hc⟩

theorem lastLabeled_isSome (k : String) (lines : List String) (l : String)
    (hl : l ∈ lines) (hlab : lineLabel l = some k) :
    ∃ r, lastLabeled k lines = some r := by
  induction lines with
  | nil => cases hl
  | cons line rest ih =>
    cases hr : lastLabeled k rest with
    | some r => exact ⟨r, by simp [lastLabeled, hr]⟩
    | none =>
      rcases List.mem_cons.mp hl with h | h
      · subst h
        exact ⟨l, by simp [lastLabeled, hr, hlab]⟩
      · obtain ⟨r, hr2⟩ := ih h
        rw [hr2] at hr
        cases hr

theorem lastLabeled_eq_none (k : String) (lines : List String)
    (h : ∀ line ∈ lines, lineLabel line ≠ some k) : lastLabeled k lines = none := by
  induction lines with
  | nil => rfl
  | cons line rest ih =>
    have h1 := ih (fun l hl => h l (List.mem_cons_of_mem _ hl))
    have h2 := h line (List.mem_cons_self _ _)
    simp [lastLabeled, h1, h2]

theorem foldLines_ok (lines : List String)
    (h : ∀ line ∈ lines, ∀ d : Dict, ∃ d', processLine d line = .ok d') :
    ∀ d : Dict, ∃ d', foldLines d lines = .ok d' := by
  induction lines with
  | nil => exact fun d => ⟨d, rfl⟩
  | cons line rest ih =>
    intro d
    obtain ⟨d1, hd1⟩ := h line (List.mem_cons_self _ _) d
    obtain ⟨d', hd'⟩ := ih (fun l hl d => h l (List.mem_cons_of_mem _ hl) d) d1
    exact ⟨d', by simp [foldLines, hd1, hd']⟩

theorem foldLines_get (lines : List String) :
    ∀ d d' : Dict, foldLines d lines = .ok d' → ∀ k : String,
      (∀ l, lastLabeled k lines = some l →
        ∃ v, extractValue l = .ok v ∧ dictGet? d' k = some v)
      ∧ (lastLabeled k lines = none → dictGet? d' k = dictGet? d k) := by
  induction lines with
  | nil =>
    intro d d' h k
    obtain rfl : d = d' := by
      simpa [foldLines] using h
    exact ⟨(fun l hl => by cases hl), (fun _ => rfl)⟩
  | cons line rest ih =>
    intro d d' h k
    cases hp : processLine d line with
    | error e =>
      rw [foldLines, hp] at h
      cases h
    | ok d1 =>
      rw [foldLines, hp] at h
      have ihk := ih d1 d' h k
      cases hr : lastLabeled k rest with
      | some r =>
        refine ⟨fun l hl => ?_, fun hn => ?_⟩
        · have : r = l := by
            have : lastLabeled k (line :: rest) = some r := by simp [lastLabeled, hr]
            rw [this] at hl
            injection hl
          subst this
          exact ihk.1 r hr
        · rw [show lastLabeled k (line :: rest) = some r by simp [lastLabeled, hr]] at hn
          cases hn
      | none =>
        have hget : dictGet? d' k = dictGet? d1 k := ihk.2 hr
        cases hll : lineLabel line with
        | none =>
          have hd1 : d1 = d := by
            rw [processLine, hll] at hp
            injection hp with hp'
            exact hp'.symm
          subst hd1
          have hcons : lastLabeled k (line :: rest) = none := by
            simp [lastLabeled, hr, hll]
          exact ⟨(fun l hl => by rw [hcons] at hl; cases hl), (fun _ => hget)⟩
        | some k' =>
          cases hev : extractValue line with
          | error e =>
            rw [processLine, hll, hev] at hp
            cases hp
          | ok v =>
            have hd1 : d1 = dictSet d k' v := by
              rw [processLine, hll, hev] at hp
              injection hp with hp'
              exact hp'.symm
            subst hd1
            by_cases hkk : k' = k
            · have hcons : lastLabeled k (line :: rest) = some line := by
                simp [lastLabeled, hr, hll, hkk]
              refine ⟨fun l hl => ?_, fun hn => by rw [hcons] at hn; cases hn⟩
              have hle : line = l := by rw [hcons] at hl; injection hl
              subst hle
              refine ⟨v, hev, ?_⟩
              rw [hget, hkk, dictGet?_dictSet_self]
            · have hcons : lastLabeled k (line :: rest) = none := by
                simp [lastLabeled, hr, hll, hkk]
              refine ⟨(fun l hl => by rw [hcons] at hl; cases hl), fun _ => ?_⟩
              rw [hget, dictGet?_dictSet_ne]
              intro hc
              exact hkk hc.symm

theorem foldLines_keys_sub (lines : List String) :
    ∀ d d' : Dict, foldLines d lines = .ok d' →
      ∀ k, k ∈ dictKeys d' → k ∈ dictKeys d ∨ k ∈ ["Positive", "Negative", "Neutral"] := by
  induction lines with
  | nil =>
    intro d d' h k hk
    obtain rfl : d = d' := by simpa [foldLines] using h
    exact Or.inl hk
  | cons line rest ih =>
    intro d d' h k hk
    cases hp : processLine d line with
    | error e =>
      rw [foldLines, hp] at h
      cases h
    | ok d1 =>
      rw [foldLines, hp] at h
      rcases ih d1 d' h k hk with h1 | h1
      · cases hll : lineLabel line with
        | none =>
          have hd1 : d1 = d := by
            rw [processLine, hll] at hp
            injection hp with hp'
            exact hp'.symm
          subst hd1
          exact Or.inl h1
        | some k' =>
          cases hev : extractValue line with
          | error e =>
            rw [processLine, hll, hev] at hp
            cases hp
          | ok v =>
            have hd1 : d1 = dictSet d k' v := by
              rw [processLine, hll, hev] at hp
              injection hp with hp'
              exact hp'.symm
            subst hd1
            rw [dictKeys_dictSet] at h1
            by_cases hmem : k' ∈ dictKeys d
            · rw [if_pos hmem] at h1
              exact Or.inl h1
            · rw [if_neg hmem] at h1
              rcases List.mem_append.mp h1 with h2 | h2
              · exact Or.inl h2
              · have : k = k' := by simpa using h2
                subst this
                exact Or.inr (lineLabel_mem_labels line k hll)
      · exact Or.inr h1

theorem foldLines_keys_nodup (lines : List String) :
    ∀ d d' : Dict, foldLines d lines = .ok d' →
      (dictKeys d).Nodup → (dictKeys d').Nodup := by
  induction lines with
  | nil =>
    intro d d' h hnd
    obtain rfl : d = d' := by simpa [foldLines] using h
    exact hnd
  | cons line rest ih =>
    intro d d' h hnd
    cases hp : processLine d line with
    | error e =>
      rw [foldLines, hp] at h
      cases h
    | ok d1 =>
      rw [foldLines, hp] at h
      refine ih d1 d' h ?_
      cases hll : lineLabel line with
      | none =>
        have hd1 : d1 = d := by
          rw [processLine, hll] at hp
          injection hp with hp'
          exact hp'.symm
        subst hd1
        exact hnd
      | some k' =>
        cases hev : extractValue line with
        | error e =>
          rw [processLine, hll, hev] at hp
          cases hp
        | ok v =>
          have hd1 : d1 = dictSet d k' v := by
            rw [processLine, hll, hev] at hp
            injection hp with hp'
            exact hp'.symm
          subst hd1
          exact dictKeys_nodup_dictSet d k' v hnd

theorem foldLines_error_of_mem (lines : List String) (line : String)
    (k : String) (e0 : ParseError) (hlab : lineLabel line = some k)
    (hex : extractValue line = .error e0) :
    ∀ d : Dict, line ∈ lines → ∃ e, foldLines d lines = .error e := by
  induction lines with
  | nil => intro d h; cases h
  | cons hd rest ih =>
    intro d hmem
    rcases List.mem_cons.mp hmem with h | h
    · subst h
      exact ⟨e0, by simp [foldLines, processLine, hlab, hex]⟩
    · cases hp : processLine d hd with
      | error e => exact ⟨e, by simp [foldLines, hp]⟩
      | ok d1 =>
        obtain ⟨e, he⟩ := ih d1 h
        exact ⟨e, by simp [foldLines, hp, he]⟩

theorem foldLines_filter (lines : List String) :
    ∀ d : Dict,
      foldLines d lines
        = foldLines d (lines.filter (fun l => (lineLabel l).isSome)) := by
  induction lines with
  | nil => intro d; rfl
  | cons line rest ih =>
    intro d
    cases hll : lineLabel line with
    | none =>
      rw [List.filter_cons]
      simp only [hll, Option.isSome_none]
      rw [foldLines, processLine, hll]
      simpa using ih d
    | some k =>
      rw [List.filter_cons]
      simp only [hll, Option.isSome_some]
      cases hp : processLine d line with
      | error e => simp [foldLines, hp]
      | ok d1 => simp [foldLines, hp, ih d1]

theorem keys_length_three (keys : List String) (hnd : keys.Nodup)
    (hsub : ∀ k ∈ keys, k ∈ ["Positive", "Negative", "Neutral"])
    (hp : "Positive" ∈ keys) (hn : "Negative" ∈ keys) (hu : "Neutral" ∈ keys) :
    keys.length = 3 := by
  have h1 : keys.toFinset = ({"Positive", "Negative", "Neutral"} : Finset String) := by
    apply Finset.ext
    intro a
    simp only [List.mem_toFinset, Finset.mem_insert, Finset.mem_singleton]
    constructor
    · intro ha
      simpa using hsub a ha
    · rintro (rfl | rfl | rfl) <;> assumption
  have h2 : keys.toFinset.card = keys.length := List.toFinset_card_of_nodup hnd
  rw [h1] at h2
  rw [← h2]
  decide

theorem keys_all_mem_of_length_three (keys : List String) (hnd : keys.Nodup)
    (hsub : ∀ k ∈ keys, k ∈ ["Positive", "Negative", "Neutral"])
    (hlen : keys.length = 3) :
    "Positive" ∈ keys ∧ "Negative" ∈ keys ∧ "Neutral" ∈ keys := by
  have hsub' : keys.toFinset ⊆ ({"Positive", "Negative", "Neutral"} : Finset String) := by
    intro a ha
    rw [List.mem_toFinset] at ha
    simpa using hsub a ha
  have hcard : keys.toFinset.card = 3 := by
    rw [List.toFinset_card_of_nodup hnd, hlen]
  have heq : keys.toFinset = ({"Positive", "Negative", "Neutral"} : Finset String) :=
    Finset.eq_of_subset_of_card_le hsub' (by rw [hcard]; decide)
  refine ⟨?_, ?_, ?_⟩ <;>
    · rw [← List.mem_toFinset, heq]
      decide

theorem parseLines_ok_eq (lines : List String) (d0 : Dict)
    (hf : foldLines [] lines = .ok d0) :
    parseLines lines = if d0.length = 3 then .ok d0 else .error .incomplete := by
  unfold parseLines
  rw [hf]

theorem parseLines_error_eq (lines : List String) (e : ParseError)
    (hf : foldLines [] lines = .error e) : parseLines lines = .error e := by
  unfold parseLines
  rw [hf]

theorem parse_ok_iff (result : String) (d : Dict) :
    parse_analysis_result result = .ok d ↔
      foldLines [] (linesOf result) = .ok d ∧ d.length = 3 := by
  unfold parse_analysis_result
  cases hf : foldLines [] (linesOf result) with
  | error e =>
    rw [parseLines_error_eq _ e hf]
    simp
  | ok d0 =>
    rw [parseLines_ok_eq _ d0 hf]
    by_cases hlen : d0.length = 3
    · rw [if_pos hlen]
      constructor
      · intro h
        injection h with h'
        subst h'
        exact ⟨rfl, hlen⟩
      · rintro ⟨h1, _⟩
        exact h1
    · rw [if_neg hlen]
      constructor
      · intro h
        cases h
      · rintro ⟨h1, h2⟩
        injection h1 with h1'
        subst h1'
        exact absurd h2 hlen

/-- Modelled from the wording of claim C10, for comparison with the code:
the text following the first colon of the line (everything after it, further
colons included), if the line has a colon at all. -/
def afterFirstColon (line : String) : Option String :=
  match splitOnChar ':' line.data with
  | [] => none
  | [_] => none
  | _ :: rest => some (String.mk (List.intercalate [':'] rest))

/-- Modelled from the wording of claim C10, for comparison with the code: a
line is called malformed when it has no colon, or the first
whitespace-delimited token after its first colon is not an integer once
percent signs are removed. -/
def claimMalformedLine (line : String) : Bool :=
  match afterFirstColon line with
  | none => true
  | some seg =>
    match pySplitWs seg.data with
    | [] => true
    | tok :: _ => (pyInt (tok.filter (fun c => c ≠ '%'))).isNone

theorem foldLines_get_unique (lines : List String) (d0 : Dict)
    (k tline : String) (v : Int)
    (hf : foldLines [] lines = .ok d0)
    (hmem : tline ∈ lines) (hlab : lineLabel tline = some k)
    (hex : extractValue tline = .ok v)
    (huniq : ∀ l ∈ lines, lineLabel l = some k → l = tline) :
    dictGet? d0 k = some v := by
  obtain ⟨r, hr⟩ := lastLabeled_isSome k lines tline hmem hlab
  obtain ⟨hrmem, hrlab⟩ := lastLabeled_spec k lines r hr
  obtain rfl : r = tline := huniq r hrmem hrlab
  obtain ⟨v', hv', hget⟩ := (foldLines_get lines [] d0 hf k).1 r hr
  rw [hex] at hv'
  injection hv' with hv2
  rw [hget, hv2]

/-- Claim C5: if the same label appears on more than one matching line of the
input text, `parse_analysis_result` returns, for that label, the value
extracted from the last such line (last-write-wins): whenever the parse
succeeds and `l` is the last line attributed to label `k`, the returned entry
for `k` is the value extracted from `l`. -/
theorem claim_C5 (result : String) (d : Dict) (k l : String)
    (hok : parse_analysis_result result = .ok d)
    (hlast : lastLabeled k (linesOf result) = some l) :
    ∃ v, extractValue l = .ok v ∧ dictGet? d k = some v := by
  obtain ⟨hf, _⟩ := (parse_ok_iff result d).mp hok
  exact (foldLines_get (linesOf result) [] d hf k).1 l hlast

theorem claim_C5_witness :
    ∃ v, extractValue "Positive: 40%" = .ok v ∧
      dictGet? [("Positive", 40), ("Negative", 10), ("Neutral", 50)] "Positive" = some v :=
  claim_C5 "Positive: 1%\nPositive: 40%\nNegative: 10%\nNeutral: 50%"
    [("Positive", 40), ("Negative", 10), ("Neutral", 50)]
    "Positive" "Positive: 40%" (by decide) (by decide)

/-- Claim C8: lines containing none of the substrings "Positive", "Negative",
"Neutral" are irrelevant to `parse_analysis_result`: two inputs whose
label-bearing lines agree (i.e. one is the other with unrelated lines
inserted or removed anywhere) produce identical results — in particular the
same tally whenever the parse succeeds. -/
theorem claim_C8 (r1 r2 : String)
    (h : (linesOf r1).filter (fun l => (lineLabel l).isSome)
       = (linesOf r2).filter (fun l => (lineLabel l).isSome)) :
    parse_analysis_result r1 = parse_analysis_result r2 := by
  unfold parse_analysis_result parseLines
  rw [foldLines_filter (linesOf r1), foldLines_filter (linesOf r2), h]

theorem claim_C8_witness :
    parse_analysis_result "Positive: 40%\nNegative: 10%\nNeutral: 50%"
      = parse_analysis_result
          "a review summary\nPositive: 40%\nhello world\nNegative: 10%\nNeutral: 50%\nthanks" :=
  claim_C8 _ _ (by decide)

/-- Claim C9: within a single line, the if/elif chain gives the fixed
priority Positive, then Negative, then Neutral: a line containing "Positive"
is attributed to Positive no matter what else it contains, a line containing
"Negative" but not "Positive" to Negative, a line containing "Neutral" but
neither of the others to Neutral; and processing a line attributed to label
`k` updates only the `k` entry of the tally, leaving every other key
unchanged. -/
theorem claim_C9 (line : String) (d : Dict) :
    (strContains line "Positive" = true → lineLabel line = some "Positive") ∧
    (strContains line "Positive" = false → strContains line "Negative" = true →
      lineLabel line = some "Negative") ∧
    (strContains line "Positive" = false → strContains line "Negative" = false →
      strContains line "Neutral" = true → lineLabel line = some "Neutral") ∧
    (∀ k v, lineLabel line = some k → extractValue line = .ok v →
      processLine d line = .ok (dictSet d k v) ∧
      dictGet? (dictSet d k v) k = some v ∧
      ∀ k', k' ≠ k → dictGet? (dictSet d k v) k' = dictGet? d k') := by
  refine ⟨?_, ?_, ?_, ?_⟩
  · intro h
    simp [lineLabel, h]
  · intro h1 h2
    simp [lineLabel, h1, h2]
  · intro h1 h2 h3
    simp [lineLabel, h1, h2, h3]
  · intro k v hk hv
    exact ⟨by simp [processLine, hk, hv], dictGet?_dictSet_self d k v,
      fun k' hne => dictGet?_dictSet_ne d k k' v hne⟩

theorem claim_C9_witness :
    processLine [] "Positive and Negative: 7%" = .ok [("Positive", 7)] :=
  ((claim_C9 "Positive and Negative: 7%" []).2.2.2 "Positive" 7 (by decide) (by decide)).1

/-- Claim C10, counterexample: the line `Positive: 40:60` is malformed in the
claim's sense (the first whitespace-delimited token after its first colon is
`40:60`, not an integer), yet `parse_analysis_result` does not fail on an
input containing it: the code reads `line.split(":")[1]`, the segment between
the first and second colons, and extracts 40. -/
theorem claim_C10_counterexample :
    claimMalformedLine "Positive: 40:60" = true ∧
    "Positive: 40:60" ∈ linesOf "Positive: 40:60\nNegative: 10%\nNeutral: 50%" ∧
    strContains "Positive: 40:60" "Positive" = true ∧
    parse_analysis_result "Positive: 40:60\nNegative: 10%\nNeutral: 50%"
      = .ok [("Positive", 40), ("Negative", 10), ("Neutral", 50)] :=
  ⟨by decide, by decide, by decide, by decide⟩

/-- Claim C10 as amended: if the input text contains a line that includes a
label substring and whose extraction fails — it has no colon, or no
whitespace-delimited token remains in the segment between its first and
second colons (the whole remainder when there is no second colon), or that
segment's first token is not an integer after percent signs are removed —
then `parse_analysis_result` fails for the whole input; the malformed line is
not skipped, even when other lines would supply all three labels. -/
theorem claim_C10 (result : String) (line k : String) (e0 : ParseError)
    (hmem : line ∈ linesOf result)
    (hlab : lineLabel line = some k)
    (hex : extractValue line = .error e0) :
    ∃ e, parse_analysis_result result = .error e := by
  obtain ⟨e, he⟩ := foldLines_error_of_mem (linesOf result) line k e0 hlab hex [] hmem
  exact ⟨e, by unfold parse_analysis_result; exact parseLines_error_eq _ e he⟩

theorem claim_C10_witness :
    ∃ e, parse_analysis_result "Positive stuff\nPositive: 40%\nNegative: 10%\nNeutral: 50%"
      = .error e :=
  claim_C10 "Positive stuff\nPositive: 40%\nNegative: 10%\nNeutral: 50%"
    "Positive stuff" "Positive" (.indexError "Positive stuff")
    (by decide) (by decide) (by decide)

/-- Claim C1, counterexample: an input whose lines include `Positive: 40%`,
`Negative: 10%` and `Neutral: 50%` among other text — here the extra line
`Positive: 99%` — on which `parse_analysis_result` does not return
`{Positive: 40, Negative: 10, Neutral: 50}`: the later Positive line
overwrites 40 with 99. -/
theorem claim_C1_counterexample :
    "Positive: 40%" ∈ linesOf "Positive: 40%\nNegative: 10%\nNeutral: 50%\nPositive: 99%" ∧
    "Negative: 10%" ∈ linesOf "Positive: 40%\nNegative: 10%\nNeutral: 50%\nPositive: 99%" ∧
    "Neutral: 50%" ∈ linesOf "Positive: 40%\nNegative: 10%\nNeutral: 50%\nPositive: 99%" ∧
    parse_analysis_result "Positive: 40%\nNegative: 10%\nNeutral: 50%\nPositive: 99%"
      = .ok [("Positive", 99), ("Negative", 10), ("Neutral", 50)] ∧
    dictGet? [("Positive", 99), ("Negative", 10), ("Neutral", 50)] "Positive" ≠ some 40 :=
  ⟨by decide, by decide, by decide, by decide, by decide⟩

/-- Claim C1 as amended: for every input text whose lines include
`Positive: 40%`, `Negative: 10%` and `Neutral: 50%` (in any order), and whose
remaining lines contain none of the substrings "Positive"/"Negative"/
"Neutral", `parse_analysis_result` returns the mapping
{Positive: 40, Negative: 10, Neutral: 50}. -/
theorem claim_C1 (result : String)
    (hall : ∀ line ∈ linesOf result,
      lineLabel line = none ∨
        line ∈ ["Positive: 40%", "Negative: 10%", "Neutral: 50%"])
    (hp : "Positive: 40%" ∈ linesOf result)
    (hn : "Negative: 10%" ∈ linesOf result)
    (hu : "Neutral: 50%" ∈ linesOf result) :
    ∃ d : Dict, parse_analysis_result result = .ok d ∧
      dictGet? d "Positive" = some 40 ∧
      dictGet? d "Negative" = some 10 ∧
      dictGet? d "Neutral" = some 50 := by
  have hproc : ∀ line ∈ linesOf result, ∀ d : Dict, ∃ d', processLine d line = .ok d' := by
    intro line hl d
    rcases hall line hl with h | h
    · exact ⟨d, by simp [processLine, h]⟩
    · fin_cases h
      · exact ⟨dictSet d "Positive" 40, by
          simp [processLine, show lineLabel "Positive: 40%" = some "Positive" from by decide,
            show extractValue "Positive: 40%" = Except.ok 40 from by decide]⟩
      · exact ⟨dictSet d "Negative" 10, by
          simp [processLine, show lineLabel "Negative: 10%" = some "Negative" from by decide,
            show extractValue "Negative: 10%" = Except.ok 10 from by decide]⟩
      · exact ⟨dictSet d "Neutral" 50, by
          simp [processLine, show lineLabel "Neutral: 50%" = some "Neutral" from by decide,
            show extractValue "Neutral: 50%" = Except.ok 50 from by decide]⟩
  obtain ⟨d0, hf⟩ := foldLines_ok (linesOf result) hproc []
  have hgp : dictGet? d0 "Positive" = some 40 := by
    refine foldLines_get_unique (linesOf result) d0 "Positive" "Positive: 40%" 40 hf hp
      (by decide) (by decide) ?_
    intro l hl hlab
    rcases hall l hl with h | h
    · rw [h] at hlab
      cases hlab
    · fin_cases h
      · rfl
      · exact absurd hlab (by decide)
      · exact absurd hlab (by decide)
  have hgn : dictGet? d0 "Negative" = some 10 := by
    refine foldLines_get_unique (linesOf result) d0 "Negative" "Negative: 10%" 10 hf hn
      (by decide) (by decide) ?_
    intro l hl hlab
    rcases hall l hl with h | h
    · rw [h] at hlab
      cases hlab
    · fin_cases h
      · exact absurd hlab (by decide)
      · rfl
      · exact absurd hlab (by decide)
  have hgu : dictGet? d0 "Neutral" = some 50 := by
    refine foldLines_get_unique (linesOf result) d0 "Neutral" "Neutral: 50%" 50 hf hu
      (by decide) (by decide) ?_
    intro l hl hlab
    rcases hall l hl with h | h
    · rw [h] at hlab
      cases hlab
    · fin_cases h
      · exact absurd hlab (by decide)
      · exact absurd hlab (by decide)
      · rfl
  have hsub : ∀ k ∈ dictKeys d0, k ∈ ["Positive", "Negative", "Neutral"] := by
    intro k hk
    rcases foldLines_keys_sub (linesOf result) [] d0 hf k hk with h | h
    · cases h
    · exact h
  have hnd := foldLines_keys_nodup (linesOf result) [] d0 hf (by simp [dictKeys])
  have hpm : "Positive" ∈ dictKeys d0 := (mem_dictKeys_iff _ _).mpr (by rw [hgp]; rfl)
  have hnm : "Negative" ∈ dictKeys d0 := (mem_dictKeys_iff _ _).mpr (by rw [hgn]; rfl)
  have hum : "Neutral" ∈ dictKeys d0 := (mem_dictKeys_iff _ _).mpr (by rw [hgu]; rfl)
  have hklen := keys_length_three (dictKeys d0) hnd hsub hpm hnm hum
  have hlen : d0.length = 3 := by rwa [dictKeys, List.length_map] at hklen
  exact ⟨d0, (parse_ok_iff result d0).mpr ⟨hf, hlen⟩, hgp, hgn, hgu⟩

theorem claim_C1_witness :
    ∃ d : Dict,
      parse_analysis_result "Neutral: 50%\nsome other text\nPositive: 40%\nNegative: 10%"
        = .ok d ∧
      dictGet? d "Positive" = some 40 ∧
      dictGet? d "Negative" = some 10 ∧
      dictGet? d "Neutral" = some 50 :=
  claim_C1 "Neutral: 50%\nsome other text\nPositive: 40%\nNegative: 10%"
    (by decide) (by decide) (by decide) (by decide)

/-- Claim C2: `parse_analysis_result` succeeds only if all three labels were
found in the input text — a successful result has exactly three entries, one
per label, and each label occurs in some line — and if any of the three
labels is absent from every line it fails with a parsing error carrying the
underlying cause (`ParseError`, wrapped by the code into
`ValueError("Failed to parse result: {e}")`). -/
theorem claim_C2 (result : String) :
    (∀ d : Dict, parse_analysis_result result = .ok d →
      d.length = 3 ∧
      (∀ k ∈ ["Positive", "Negative", "Neutral"],
        (∃ v, dictGet? d k = some v) ∧
        ∃ line ∈ linesOf result, strContains line k = true) ∧
      (∀ p ∈ d, p.1 ∈ ["Positive", "Negative", "Neutral"])) ∧
    (∀ k ∈ ["Positive", "Negative", "Neutral"],
      (∀ line ∈ linesOf result, strContains line k = false) →
      ∃ e, parse_analysis_result result = .error e) := by
  constructor
  · intro d hok
    obtain ⟨hf, hlen⟩ := (parse_ok_iff result d).mp hok
    have hsub : ∀ k ∈ dictKeys d, k ∈ ["Positive", "Negative", "Neutral"] := by
      intro k hk
      rcases foldLines_keys_sub (linesOf result) [] d hf k hk with h | h
      · cases h
      · exact h
    have hnd := foldLines_keys_nodup (linesOf result) [] d hf (by simp [dictKeys])
    have hklen : (dictKeys d).length = 3 := by rw [dictKeys, List.length_map, hlen]
    obtain ⟨hpm, hnm, hum⟩ := keys_all_mem_of_length_three (dictKeys d) hnd hsub hklen
    refine ⟨hlen, ?_, ?_⟩
    · intro k hk
      have hkm : k ∈ dictKeys d := by
        fin_cases hk
        · exact hpm
        · exact hnm
        · exact hum
      obtain ⟨v, hv⟩ := Option.isSome_iff_exists.mp ((mem_dictKeys_iff d k).mp hkm)
      cases h2 : lastLabeled k (linesOf result) with
      | none =>
        have h3 := (foldLines_get (linesOf result) [] d hf k).2 h2
        rw [hv] at h3
        simp [dictGet?] at h3
      | some l =>
        obtain ⟨hlm, hll⟩ := lastLabeled_spec k (linesOf result) l h2
        exact ⟨⟨v, hv⟩, ⟨l, hlm, lineLabel_contains l k hll⟩⟩
    · intro p hp
      exact hsub p.1 (List.mem_map_of_mem Prod.fst hp)
  · intro k hk hnone
    have hnl : ∀ line ∈ linesOf result, lineLabel line ≠ some k :=
      fun line hl => lineLabel_ne_of_not_contains line k (hnone line hl)
    cases hf : foldLines [] (linesOf result) with
    | error e =>
      exact ⟨e, by unfold parse_analysis_result; exact parseLines_error_eq _ e hf⟩
    | ok d0 =>
      have hget : dictGet? d0 k = none := by
        have h3 := (foldLines_get (linesOf result) [] d0 hf k).2
          (lastLabeled_eq_none k _ hnl)
        simpa [dictGet?] using h3
      by_cases hlen : d0.length = 3
      · exfalso
        have hsub : ∀ k' ∈ dictKeys d0, k' ∈ ["Positive", "Negative", "Neutral"] := by
          intro k' hk'
          rcases foldLines_keys_sub (linesOf result) [] d0 hf k' hk' with h | h
          · cases h
          · exact h
        have hnd := foldLines_keys_nodup (linesOf result) [] d0 hf (by simp [dictKeys])
        have hklen : (dictKeys d0).length = 3 := by rw [dictKeys, List.length_map, hlen]
        obtain ⟨hpm, hnm, hum⟩ := keys_all_mem_of_length_three (dictKeys d0) hnd hsub hklen
        have hkm : k ∈ dictKeys d0 := by
          fin_cases hk
          · exact hpm
          · exact hnm
          · exact hum
        have h4 := (mem_dictKeys_iff d0 k).mp hkm
        rw [hget] at h4
        cases h4
      · refine ⟨.incomplete, ?_⟩
        unfold parse_analysis_result
        rw [parseLines_ok_eq _ d0 hf, if_neg hlen]

theorem claim_C2_witness :
    ([("Positive", 40), ("Negative", 10), ("Neutral", 50)] : Dict).length = 3 :=
  ((claim_C2 "Positive: 40%\nNegative: 10%\nNeutral: 50%").1
    [("Positive", 40), ("Negative", 10), ("Neutral", 50)] (by decide)).1

theorem waitExit_ok (file f : GFile) (h : waitExit file = .ok f) : f.state = "ACTIVE" := by
  unfold waitExit at h
  split_ifs at h with ha
  injection h with h2
  subst h2
  exact ha

theorem wait_ok_active (getFile : String → Nat → GFile) :
    ∀ fuel t file f s,
      wait_for_file_active getFile fuel t file = some (.ok f, s) →
      f.state = "ACTIVE" := by
  intro fuel
  induction fuel with
  | zero =>
    intro t file f s h
    rw [wait_for_file_active] at h
    by_cases hp : file.state = "PROCESSING"
    · rw [if_pos hp] at h
      cases h
    · rw [if_neg hp] at h
      injection h with h2
      exact waitExit_ok file f (congrArg Prod.fst h2)
  | succ fuel ih =>
    intro t file f s h
    rw [wait_for_file_active] at h
    by_cases hp : file.state = "PROCESSING"
    · rw [if_pos hp] at h
      cases h2 : wait_for_file_active getFile fuel (t + 1) (getFile file.name t) with
      | none =>
        rw [h2] at h
        cases h
      | some rs =>
        obtain ⟨r, s'⟩ := rs
        rw [h2] at h
        injection h with h3
        have h4 : r = .ok f := congrArg Prod.fst h3
        exact ih (t + 1) (getFile file.name t) f s' (by rw [h2, h4])
    · rw [if_neg hp] at h
      injection h with h2
      exact waitExit_ok file f (congrArg Prod.fst h2)

theorem wait_fail (getFile : String → Nat → GFile) (fuel t : Nat) (file : GFile)
    (hp : file.state ≠ "PROCESSING") (ha : file.state ≠ "ACTIVE") :
    wait_for_file_active getFile fuel t file
      = some (.error ("File " ++ file.name ++ " failed to process"), 0) := by
  cases fuel <;>
    · rw [wait_for_file_active, if_neg hp]
      unfold waitExit
      rw [if_neg ha]

theorem session_file_active (upload : String → GFile) (getFile : String → Nat → GFile)
    (fuel : Nat) (path : String) (f : GFile)
    (h : analyze_sentiment_session_file upload getFile fuel path = some (.ok f)) :
    f.state = "ACTIVE" := by
  unfold analyze_sentiment_session_file at h
  cases hw : wait_for_file_active getFile fuel 0 (upload path) with
  | none =>
    rw [hw] at h
    cases h
  | some rs =>
    obtain ⟨r, s⟩ := rs
    rw [hw] at h
    injection h with h2
    subst h2
    exact wait_ok_active getFile fuel 0 (upload path) f s hw

/-- Claim C4: `wait_for_file_active` returns a handle only when that handle's
state is ACTIVE; for a handle in any non-PROCESSING, non-ACTIVE state it
raises the error naming the handle; consequently the file
`analyze_sentiment` seeds the model chat session with is always in ACTIVE
state. -/
theorem claim_C4 (getFile : String → Nat → GFile) (fuel t : Nat) :
    (∀ file f s, wait_for_file_active getFile fuel t file = some (.ok f, s) →
      f.state = "ACTIVE") ∧
    (∀ file : GFile, file.state ≠ "PROCESSING" → file.state ≠ "ACTIVE" →
      wait_for_file_active getFile fuel t file
        = some (.error ("File " ++ file.name ++ " failed to process"), 0)) ∧
    (∀ upload path f, analyze_sentiment_session_file upload getFile fuel path
        = some (.ok f) → f.state = "ACTIVE") :=
  ⟨fun file f s h => wait_ok_active getFile fuel t file f s h,
   fun file hp ha => wait_fail getFile fuel t file hp ha,
   fun upload path f h => session_file_active upload getFile fuel path f h⟩

theorem claim_C4_witness :
    (⟨"files/x", "ACTIVE"⟩ : GFile).state = "ACTIVE" ∧
    wait_for_file_active (fun _ _ => ⟨"files/x", "ACTIVE"⟩) 0 0 ⟨"files/y", "FAILED"⟩
      = some (.error ("File " ++ "files/y" ++ " failed to process"), 0) :=
  ⟨(claim_C4 (fun _ _ => ⟨"files/x", "ACTIVE"⟩) 0 0).1 ⟨"files/x", "ACTIVE"⟩
      ⟨"files/x", "ACTIVE"⟩ 0 (by decide),
   (claim_C4 (fun _ _ => ⟨"files/x", "ACTIVE"⟩) 0 0).2.1 ⟨"files/y", "FAILED"⟩
      (by decide) (by decide)⟩

theorem pollSeq_shift (getFile : String → Nat → GFile) (t : Nat) (file : GFile) :
    ∀ n, pollSeq getFile (t + 1) (getFile file.name t) n = pollSeq getFile t file (n + 1) := by
  intro n
  induction n with
  | zero => rfl
  | succ n ih =>
    show getFile (pollSeq getFile (t + 1) (getFile file.name t) n).name (t + 1 + n)
        = getFile (pollSeq getFile t file (n + 1)).name (t + (n + 1))
    rw [ih]
    congr 1
    omega

theorem wait_none_of_forever (getFile : String → Nat → GFile) :
    ∀ fuel t file,
      (∀ n, (pollSeq getFile t file n).state = "PROCESSING") →
      wait_for_file_active getFile fuel t file = none := by
  intro fuel
  induction fuel with
  | zero =>
    intro t file hall
    have h0 : file.state = "PROCESSING" := hall 0
    rw [wait_for_file_active, if_pos h0]
  | succ fuel ih =>
    intro t file hall
    have h0 : file.state = "PROCESSING" := hall 0
    rw [wait_for_file_active, if_pos h0]
    rw [ih (t + 1) (getFile file.name t)
      (fun n => by rw [pollSeq_shift]; exact hall (n + 1))]
    rfl

theorem wait_some_of_exit (getFile : String → Nat → GFile) :
    ∀ n t file,
      (pollSeq getFile t file n).state ≠ "PROCESSING" →
      ∃ r, wait_for_file_active getFile n t file = some r := by
  intro n
  induction n with
  | zero =>
    intro t file h0
    have h0' : file.state ≠ "PROCESSING" := h0
    exact ⟨(waitExit file, 0), by rw [wait_for_file_active, if_neg h0']⟩
  | succ n ih =>
    intro t file hn
    by_cases hp : file.state = "PROCESSING"
    · obtain ⟨r, hr⟩ := ih (t + 1) (getFile file.name t) (by rw [pollSeq_shift]; exact hn)
      exact ⟨(r.1, r.2 + 10), by rw [wait_for_file_active, if_pos hp, hr]; rfl⟩
    · exact ⟨(waitExit file, 0), by rw [wait_for_file_active, if_neg hp]⟩

theorem wait_some_spec (getFile : String → Nat → GFile) :
    ∀ fuel t file r s,
      wait_for_file_active getFile fuel t file = some (r, s) →
      ∃ n, n ≤ fuel ∧ s = 10 * n ∧
        (pollSeq getFile t file n).state ≠ "PROCESSING" ∧
        (∀ m < n, (pollSeq getFile t file m).state = "PROCESSING") ∧
        r = waitExit (pollSeq getFile t file n) := by
  intro fuel
  induction fuel with
  | zero =>
    intro t file r s h
    rw [wait_for_file_active] at h
    by_cases hp : file.state = "PROCESSING"
    · rw [if_pos hp] at h
      cases h
    · rw [if_neg hp] at h
      injection h with h2
      have hr : r = waitExit file := (congrArg Prod.fst h2).symm
      have hs : s = 0 := (congrArg Prod.snd h2).symm
      exact ⟨0, Nat.le_refl 0, by rw [hs], hp,
        fun m hm => absurd hm (Nat.not_lt_zero m), hr⟩
  | succ fuel ih =>
    intro t file r s h
    rw [wait_for_file_active] at h
    by_cases hp : file.state = "PROCESSING"
    · rw [if_pos hp] at h
      cases hw : wait_for_file_active getFile fuel (t + 1) (getFile file.name t) with
      | none =>
        rw [hw] at h
        cases h
      | some rs =>
        obtain ⟨r', s'⟩ := rs
        rw [hw] at h
        injection h with h2
        have hr : r' = r := congrArg Prod.fst h2
        have hs : s' + 10 = s := congrArg Prod.snd h2
        obtain ⟨n, hn, hsn, hexit, hbefore, hr2⟩ := ih (t + 1) (getFile file.name t) r' s' hw
        refine ⟨n + 1, Nat.succ_le_succ hn, by omega, ?_, ?_, ?_⟩
        · rw [← pollSeq_shift]
          exact hexit
        · intro m hm
          cases m with
          | zero => exact hp
          | succ m' =>
            rw [← pollSeq_shift]
            exact hbefore m' (by omega)
        · rw [← pollSeq_shift, ← hr]
          exact hr2
    · rw [if_neg hp] at h
      injection h with h2
      have hr : r = waitExit file := (congrArg Prod.fst h2).symm
      have hs : s = 0 := (congrArg Prod.snd h2).symm
      exact ⟨0, Nat.zero_le _, by rw [hs], hp,
        fun m hm => absurd hm (Nat.not_lt_zero m), hr⟩

/-- Claim C7: the poll loop of `wait_for_file_active` repeats — sleeping a
fixed 10-unit interval and re-fetching the handle — exactly as long as the
fetched state is PROCESSING, with no maximum retry count or timeout: it
never returns when every fetched state is PROCESSING (no fuel suffices), it
terminates as soon as the fetched sequence leaves PROCESSING, and on
termination it has slept 10 units per iteration, the iterations being
precisely the leading run of PROCESSING states. -/
theorem claim_C7 (getFile : String → Nat → GFile) (t : Nat) (file : GFile) :
    ((∀ n, (pollSeq getFile t file n).state = "PROCESSING") →
      ∀ fuel, wait_for_file_active getFile fuel t file = none) ∧
    ((∃ n, (pollSeq getFile t file n).state ≠ "PROCESSING") →
      ∃ fuel r, wait_for_file_active getFile fuel t file = some r) ∧
    (∀ fuel r s, wait_for_file_active getFile fuel t file = some (r, s) →
      ∃ n, n ≤ fuel ∧ s = 10 * n ∧
        (pollSeq getFile t file n).state ≠ "PROCESSING" ∧
        (∀ m < n, (pollSeq getFile t file m).state = "PROCESSING") ∧
        r = waitExit (pollSeq getFile t file n)) :=
  ⟨fun hall fuel => wait_none_of_forever getFile fuel t file hall,
   fun h => h.elim (fun n hn => ⟨n, wait_some_of_exit getFile n t file hn⟩),
   fun fuel r s h => wait_some_spec getFile fuel t file r s h⟩

theorem claim_C7_witness :
    ∃ fuel r,
      wait_for_file_active (fun _ _ => ⟨"files/z", "ACTIVE"⟩) fuel 0
        ⟨"files/z", "PROCESSING"⟩ = some r :=
  (claim_C7 (fun _ _ => ⟨"files/z", "ACTIVE"⟩) 0 ⟨"files/z", "PROCESSING"⟩).2.1
    ⟨1, by decide⟩

/-- Claim C3, counterexample: a three-entry Sentiment Tally — one actually
produced by `parse_analysis_result` — whose first inserted entry is
Negative; `generate_pie_chart` pairs Negative with green `#4CAF50` and
Positive with red `#F44336`, so the color a label receives depends on the
insertion order of the tally, not on the fixed mapping Positive=green,
Negative=red, Neutral=yellow the claim asserts. -/
theorem claim_C3_counterexample :
    parse_analysis_result "Negative: 10%\nPositive: 40%\nNeutral: 50%"
      = .ok [("Negative", 10), ("Positive", 40), ("Neutral", 50)] ∧
    ([("Negative", 10), ("Positive", 40), ("Neutral", 50)] : Dict).length = 3 ∧
    colorOf (generate_pie_chart [("Negative", 10), ("Positive", 40), ("Neutral", 50)])
      "Positive" = some "#F44336" ∧
    colorOf (generate_pie_chart [("Negative", 10), ("Positive", 40), ("Neutral", 50)])
      "Negative" = some "#4CAF50" :=
  ⟨by decide, by decide, by decide, by decide⟩

/-- Claim C3 as amended: `generate_pie_chart` assigns colors positionally —
first entry green `#4CAF50`, second red `#F44336`, third yellow `#FFC107` —
and its slice labels are the tally's keys in insertion order; hence the fixed
mapping Positive=green, Negative=red, Neutral=yellow holds exactly for
tallies whose entries were inserted in the order Positive, Negative,
Neutral, whatever their three values. -/
theorem claim_C3 (v1 v2 v3 : Int) (d : Dict) :
    (generate_pie_chart d).labels = dictKeys d ∧
    (generate_pie_chart d).colors = ["#4CAF50", "#F44336", "#FFC107"] ∧
    colorOf (generate_pie_chart [("Positive", v1), ("Negative", v2), ("Neutral", v3)])
      "Positive" = some "#4CAF50" ∧
    colorOf (generate_pie_chart [("Positive", v1), ("Negative", v2), ("Neutral", v3)])
      "Negative" = some "#F44336" ∧
    colorOf (generate_pie_chart [("Positive", v1), ("Negative", v2), ("Neutral", v3)])
      "Neutral" = some "#FFC107" ∧
    (generate_pie_chart [("Positive", v1), ("Negative", v2), ("Neutral", v3)]).labels.length
      = 3 :=
  ⟨rfl, rfl, rfl, rfl, rfl, rfl⟩

/-- Claim C6: after every invocation of the upload pipeline — success, parse
failure, or upload/analysis failure, i.e. for every possible outcome of the
`analyze` call — the temporary file `temp_<name>` created for that
invocation is removed: the final filesystem is exactly the written-then-
removed one, and never contains the temporary file. -/
theorem claim_C6 (analyze : String → Except String String)
    (fileName : String) (fs : List String) :
    (upload_handler analyze fileName fs).2
      = fsRemove (fsWrite fs ("temp_" ++ fileName)) ("temp_" ++ fileName) ∧
    ("temp_" ++ fileName) ∉ (upload_handler analyze fileName fs).2 := by
  refine ⟨rfl, ?_⟩
  intro hmem
  rw [show (upload_handler analyze fileName fs).2
      = fsRemove (fsWrite fs ("temp_" ++ fileName)) ("temp_" ++ fileName) from rfl] at hmem
  unfold fsRemove at hmem
  simp [List.mem_filter] at hmem

theorem claim_C6_witness :
    "temp_reviews.csv" ∉ (upload_handler (fun _ => .error "network down") "reviews.csv" []).2 :=
  (claim_C6 (fun _ => .error "network down") "reviews.csv" []).2
